import Mathlib

/-!
# Verification of the INFO→FORMAT transfer engine

Shallow embedding of `src/main.rs` of the `vcf-info2format` tool: a
single-pass program that relocates selected per-variant INFO fields of a
single-sample VCF into per-sample FORMAT fields.

Modelling conventions
* `BTreeSet<String>` / `BTreeMap<String, _>` are modelled as ordered,
  duplicate-free association lists built by sorted insertion (`insertStr`,
  `insertSorted`), so that iteration order (ascending lexicographic key
  order) is preserved exactly as in Rust.
* Rust `i32` values are modelled as `Int` (the program only moves them,
  no arithmetic is performed, so no wrap-around can matter); `f32` values
  are opaque bit patterns (`F32`), again only ever moved, never computed
  with; byte strings are `List Nat`.
* The external htslib collaborator is modelled from the specification's
  external-interface section: a header is an ordered list of metadata
  records; `remove_info id` removes every INFO declaration carrying that
  id; `push_record "##FORMAT=<ID=..,Number=..,Type=..,Description=..>"`
  appends a structured FORMAT declaration; `Header::from_template` copies
  all declarations.  `output.translate(&mut rec)` only re-associates the
  record with the new header and alters no stored value, so it is the
  identity on the modelled record content.
* Fallible operations (record parsing, typed INFO reads whose `.unwrap()`
  / `.expect(..)` would panic, the `n_records % verbose_report` remainder
  which panics in Rust when `verbose_report == 0`) are modelled with
  `Except` / explicit error constructors.
* Logging macros (`trace!`, `debug!`, `info!`, `error!` short of the
  subsequent `return`) write to stderr only and never touch the output
  stream; they are therefore not part of the modelled observable output.
  The `verbose` level only selects a log level and is carried in the
  configuration but never read by the engine, exactly as in the source.
-/

namespace InfoToFormat

/-- The four recognised VCF tag types, `rust_htslib::bcf::header::TagType`. -/
inductive TagType
  | Flag
  | Integer
  | Float
  | String
deriving DecidableEq, Repr

/-- Opaque model of a Rust `f32`: the program only ever moves float values
(from INFO or QUAL into FORMAT), never computes with them, so a float is
just an uninterpreted bit pattern. -/
structure F32 where
  bits : Nat
deriving DecidableEq, Repr

/-- The `TagValue` enum of `main.rs` (lines 37–42): the captured value of
one requested field for one record. -/
inductive TagValue
  | Flag : Int → TagValue
  | Integer : List Int → TagValue
  | Float : List F32 → TagValue
  | String : List (List Nat) → TagValue
deriving DecidableEq, Repr

/-- A typed INFO value as stored on a record (what the typed accessors
`info(tag).flag() / .integer() / .float() / .string()` read). -/
inductive InfoValue
  | flagV
  | intV : List Int → InfoValue
  | floatV : List F32 → InfoValue
  | strV : List (List Nat) → InfoValue
deriving DecidableEq, Repr

/-- One INFO declaration of the header (`HeaderRecord::Info` with its
ID/Number/Type/Description values; VCF INFO metadata lines always carry
these four keys). -/
structure InfoDecl where
  id : String
  number : String
  ty : String
  description : String
deriving DecidableEq, Repr

/-- One FORMAT declaration of the header. -/
structure FormatDecl where
  id : String
  number : String
  ty : String
  description : String
deriving DecidableEq, Repr

/-- A header metadata record, as enumerated by `header.header_records()`.
Records other than INFO/FORMAT declarations are never inspected by the
program and are collapsed into `other`. -/
inductive HeaderRecord
  | info (id number ty description : String)
  | format (id number ty description : String)
  | other
deriving DecidableEq, Repr

/-- The output schema: the INFO declarations that survive
`remove_info`, and the FORMAT declarations (the template's original ones
followed by every pushed `##FORMAT=<...>` record, in push order). -/
structure OutHeader where
  infos : List InfoDecl
  formats : List FormatDecl
deriving DecidableEq, Repr

/-- One variant record: its INFO values, its QUAL score and its FORMAT
values for the sole sample (in push order). -/
structure VcfRecord where
  info : List (String × InfoValue)
  qual : F32
  format : List (String × TagValue)
deriving DecidableEq, Repr

/-! ## Ordered-map primitives (model of `BTreeSet` / `BTreeMap`) -/

/-- Strict lexicographic comparison of character lists by codepoint.
For UTF-8 encoded strings, byte-wise order (the order Rust's
`BTreeMap<String, _>` / `BTreeSet<String>` use) coincides with
codepoint-wise lexicographic order, which this function computes.
Structurally recursive so that it evaluates inside the kernel. -/
def charListLt : List Char → List Char → Bool
  | _, [] => false
  | [], _ :: _ => true
  | a :: as, b :: bs =>
    if a.toNat < b.toNat then true
    else if b.toNat < a.toNat then false
    else charListLt as bs

/-- The string order of Rust's ordered containers. -/
def strLt (a b : String) : Bool := charListLt a.data b.data

/-- First-match lookup in an association list. -/
def lookupA {α : Type} : String → List (String × α) → Option α
  | _, [] => none
  | k, (k', v) :: t => if k = k' then some v else lookupA k t

/-- Remove every entry with the given key (model of clearing a tag). -/
def removeA {α : Type} : String → List (String × α) → List (String × α)
  | _, [] => []
  | k, (k', v) :: t => if k' = k then removeA k t else (k', v) :: removeA k t

/-- Remove every entry with the given key (used to express "the field was
never requested" when comparing runs). -/
def eraseKeyA {α : Type} : String → List (String × α) → List (String × α)
  | _, [] => []
  | k, (k', v) :: t => if k' = k then eraseKeyA k t else (k', v) :: eraseKeyA k t

/-- Ordered insertion into a sorted association list, replacing an equal
key — the model of `BTreeMap::insert`. -/
def insertSorted {α : Type} : String → α → List (String × α) → List (String × α)
  | k, v, [] => [(k, v)]
  | k, v, (k', v') :: t =>
    if strLt k k' then (k, v) :: (k', v') :: t
    else if k = k' then (k, v) :: t
    else (k', v') :: insertSorted k v t

/-- Ordered insertion into a sorted duplicate-free string list — the model
of `BTreeSet::insert`. -/
def insertStr : String → List String → List String
  | k, [] => [k]
  | k, k' :: t =>
    if strLt k k' then k :: k' :: t
    else if k = k' then k' :: t
    else k' :: insertStr k t

/-- `BTreeSet::from_iter` over the requested field list (lines 63–65). -/
def mkSet (l : List String) : List String := l.foldl (fun s x => insertStr x s) []

/-- `BTreeSet::contains`. -/
def elemStr : String → List String → Bool
  | _, [] => false
  | k, k' :: t => if k = k' then true else elemStr k t

/-- `BTreeSet::remove` (sets are duplicate free; removing every occurrence
is the same operation and is simpler to reason about). -/
def removeStr : String → List String → List String
  | _, [] => []
  | k, k' :: t => if k' = k then removeStr k t else k' :: removeStr k t

/-! ## Schema planner (lines 77–127 of `main.rs`) -/

/-- `new_header.remove_info(id)`: the external header model removes the
INFO declarations carrying this id from the schema ("remove
annotation-namespace field declarations by id"). -/
def removeInfoId : String → List InfoDecl → List InfoDecl
  | _, [] => []
  | k, i :: t => if i.id = k then removeInfoId k t else i :: removeInfoId k t

/-- The INFO declarations with a given id, in order. -/
def infoDeclsFor : String → List InfoDecl → List InfoDecl
  | _, [] => []
  | k, i :: t => if i.id = k then i :: infoDeclsFor k t else infoDeclsFor k t

/-- The FORMAT declarations with a given id, in order. -/
def formatDeclsFor : String → List FormatDecl → List FormatDecl
  | _, [] => []
  | k, i :: t => if i.id = k then i :: formatDeclsFor k t else formatDeclsFor k t

/-- The INFO declarations of a header, in header order. -/
def infosOf : List HeaderRecord → List InfoDecl
  | [] => []
  | .info i n t d :: rest => ⟨i, n, t, d⟩ :: infosOf rest
  | .format _ _ _ _ :: rest => infosOf rest
  | .other :: rest => infosOf rest

/-- The FORMAT declarations of a header, in header order. -/
def formatsOf : List HeaderRecord → List FormatDecl
  | [] => []
  | .format i n t d :: rest => ⟨i, n, t, d⟩ :: formatsOf rest
  | .info _ _ _ _ :: rest => formatsOf rest
  | .other :: rest => formatsOf rest

/-- The type-string dispatch of lines 100–109. -/
def parseTagType (s : String) : Option TagType :=
  if s = "Flag" then some TagType.Flag
  else if s = "Integer" then some TagType.Integer
  else if s = "Float" then some TagType.Float
  else if s = "String" then some TagType.String
  else none

/-- The errors a run can abort with (each corresponds to one `error!` +
`return`, or to a Rust panic, in `main.rs`). -/
inductive RunError
  | noFields
  | notSingleSample
  | unknownTagType (ty : String)
  | missingField (f : String)
  | malformedRecord (cause : String)
  | reportIntervalPanic
  | recordPanic (msg : String)
deriving DecidableEq, Repr

/-- Decidable equality of `Except` results, for evaluating the engine on
concrete inputs. -/
instance {ε α : Type} [DecidableEq ε] [DecidableEq α] : DecidableEq (Except ε α)
  | .error a, .error b =>
    if h : a = b then .isTrue (by rw [h])
    else .isFalse (fun hc => h (Except.error.inj hc))
  | .error _, .ok _ => .isFalse (fun hc => Except.noConfusion hc)
  | .ok _, .error _ => .isFalse (fun hc => Except.noConfusion hc)
  | .ok a, .ok b =>
    if h : a = b then .isTrue (by rw [h])
    else .isFalse (fun hc => h (Except.ok.inj hc))

/-- The mutable state of the header scan loop (lines 84–114): the not yet
found requested ids, the evolving output schema, and the field plan. -/
structure ScanState where
  fields : List String
  infos : List InfoDecl
  formats : List FormatDecl
  fieldTypes : List (String × TagType)
deriving DecidableEq, Repr

/-- The header scan loop of lines 87–114: for each INFO declaration whose
id is still requested, drop the id from the requested set, remove the
declaration from the output schema's INFO namespace, push an equivalent
FORMAT declaration, and record the parsed type in the field plan; an
unrecognised type string aborts the run. -/
def scanHeader : List HeaderRecord → ScanState → Except RunError ScanState
  | [], st => .ok st
  | .info id number ty descr :: rest, st =>
    if elemStr id st.fields then
      match parseTagType ty with
      | some tt =>
        scanHeader rest
          { fields := removeStr id st.fields
            infos := removeInfoId id st.infos
            formats := st.formats ++ [⟨id, number, ty, descr⟩]
            fieldTypes := insertSorted id tt st.fieldTypes }
      | none => .error (.unknownTagType ty)
    else scanHeader rest st
  | .format _ _ _ _ :: rest, st => scanHeader rest st
  | .other :: rest, st => scanHeader rest st

/-- The missing-field check of lines 116–121: the first id of the
requested list (in the user's order) that did not resolve to a plan
entry. -/
def firstMissing : List String → List (String × TagType) → Option String
  | [], _ => none
  | f :: t, ft => if (lookupA f ft).isNone then some f else firstMissing t ft

/-- The fixed FORMAT declaration pushed for QUAL relocation (line 124). -/
def qualFormatDecl : FormatDecl :=
  ⟨"QUAL", "1", "Float",
   "Phred-scaled quality score for the assertion made in ALT"⟩

/-- The initial scan state: the requested ids as a set, and the output
schema initialised from the template (all original declarations). -/
def initScanState (argsFields : List String) (hdr : List HeaderRecord) : ScanState :=
  ⟨mkSet argsFields, infosOf hdr, formatsOf hdr, []⟩

/-- The schema-planning stage (lines 77–127): single-sample check, header
scan, missing-field check, optional QUAL FORMAT declaration.  Returns the
output schema and the field plan. -/
def plan (argsFields : List String) (q : Bool) (sampleCount : Nat)
    (hdr : List HeaderRecord) : Except RunError (OutHeader × List (String × TagType)) :=
  if sampleCount ≠ 1 then .error .notSingleSample
  else
    match scanHeader hdr (initScanState argsFields hdr) with
    | .error e => .error e
    | .ok st =>
      match firstMissing argsFields st.fieldTypes with
      | some f => .error (.missingField f)
      | none =>
        let fmts := if q then st.formats ++ [qualFormatDecl] else st.formats
        .ok (⟨st.infos, fmts⟩, st.fieldTypes)

/-! ## Record transformer (lines 156–218 of `main.rs`) -/

/-- One iteration of the extraction loop (lines 158–192) for one plan
entry: the typed read, the captured value (if any) and the cleared
record.  A read whose `.unwrap()` would panic in Rust (the record carries
the tag with a payload of another type) is an error. -/
def extractOne (r : VcfRecord) (tag : String) (tt : TagType) :
    Except String (VcfRecord × Option TagValue) :=
  match tt with
  | .Flag =>
    match lookupA tag r.info with
    | some .flagV => .ok ({ r with info := removeA tag r.info }, some (.Flag 1))
    | none => .ok (r, some (.Flag 0))
    | some _ => .error "Can not read INFO flag"
  | .Integer =>
    match lookupA tag r.info with
    | some (.intV v) => .ok ({ r with info := removeA tag r.info }, some (.Integer v))
    | none => .ok (r, none)
    | some _ => .error "Can not read INFO integer"
  | .Float =>
    match lookupA tag r.info with
    | some (.floatV v) => .ok ({ r with info := removeA tag r.info }, some (.Float v))
    | none => .ok (r, none)
    | some _ => .error "Can not read INFO float"
  | .String =>
    match lookupA tag r.info with
    | some (.strV v) => .ok ({ r with info := removeA tag r.info }, some (.String v))
    | none => .ok (r, none)
    | some _ => .error "Can not read INFO string"

/-- The extraction loop over the field plan (iterated in `BTreeMap` order,
which is the list order of the sorted plan), accumulating the captured
values into the `data` map via sorted insertion. -/
def extractAll : List (String × TagType) → VcfRecord → List (String × TagValue) →
    Except String (VcfRecord × List (String × TagValue))
  | [], r, data => .ok (r, data)
  | (tag, tt) :: rest, r, data =>
    match extractOne r tag tt with
    | .error e => .error e
    | .ok (r1, none) => extractAll rest r1 data
    | .ok (r1, some v) => extractAll rest r1 (insertSorted tag v data)

/-- The QUAL FORMAT entry pushed at lines 215–218. -/
def qualEntry (r : VcfRecord) : String × TagValue := ("QUAL", TagValue.Float [r.qual])

/-- The whole per-record transform (lines 156–218): extract, translate
(identity on stored values), re-insert the captured data in `data`-map
iteration order, then optionally push QUAL. -/
def processRecord (ft : List (String × TagType)) (useQual : Bool) (r : VcfRecord) :
    Except String VcfRecord :=
  match extractAll ft r [] with
  | .error e => .error e
  | .ok (r1, data) =>
    let r2 := { r1 with format := r1.format ++ data }
    .ok (if useQual then { r2 with format := r2.format ++ [qualEntry r1] } else r2)

/-! ## Pipeline driver (lines 44–225 of `main.rs`) -/

/-- The configuration surface consumed by the driver.  `verbose` only
selects a log level in the source and is never read by the engine. -/
structure Config where
  fields : List String
  qual : Bool
  verbose : Nat
  verboseReport : Nat
deriving DecidableEq, Repr

/-- A run's input: the header's sample count, the header records, and the
stream of record parse results. -/
structure RunInput where
  sampleCount : Nat
  hdr : List HeaderRecord
  records : List (Except String VcfRecord)
deriving DecidableEq, Repr

/-- A run's observable result: the outcome (on success the output schema,
the transformed records in output order and the final record count), plus
the number of stream items that were pulled from the input. -/
structure RunResult where
  outcome : Except RunError (OutHeader × List VcfRecord × Nat)
  recordsPulled : Nat
deriving DecidableEq, Repr

/-- The record-streaming loop (lines 139–223): abort on a malformed
record; count the record; `n_records % verbose_report` panics in Rust
when the divisor is zero (otherwise the progress trace has no effect);
transform; collect the written record. -/
def streamLoop (ft : List (String × TagType)) (useQual : Bool) (vr : Nat)
    (oh : OutHeader) :
    List (Except String VcfRecord) → Nat → List VcfRecord → RunResult
  | [], n, acc => ⟨.ok (oh, acc, n), n⟩
  | .error e :: _, n, _ => ⟨.error (.malformedRecord e), n + 1⟩
  | .ok r :: rest, n, acc =>
    if vr = 0 then ⟨.error .reportIntervalPanic, n + 1⟩
    else
      match processRecord ft useQual r with
      | .error m => ⟨.error (.recordPanic m), n + 1⟩
      | .ok r' => streamLoop ft useQual vr oh rest (n + 1) (acc ++ [r'])

/-- The whole run: configuration check (before any input is touched),
planning, then streaming. -/
def run (cfg : Config) (inp : RunInput) : RunResult :=
  if cfg.fields = [] ∧ cfg.qual = false then ⟨.error .noFields, 0⟩
  else
    match plan cfg.fields cfg.qual inp.sampleCount inp.hdr with
    | .error e => ⟨.error e, 0⟩
    | .ok (oh, ft) => streamLoop ft cfg.qual cfg.verboseReport oh inp.records 0 []

/-! ## Auxiliary definitions used by the verification -/

/-- The keys of an association list. -/
def keysOf {α : Type} (l : List (String × α)) : List String := l.map Prod.fst

/-- The key-ordering relation used for sortedness of the modelled
`BTreeMap`s. -/
def KeyLt {α : Type} (a b : String × α) : Prop := strLt a.1 b.1 = true

/-- The extraction contract of one plan entry, read off the typed-read
match arms of lines 160–191: given the declared type and the INFO value
stored on the record, `none` means the typed read's `.unwrap()` panics
(payload of another type), `some none` means extraction is skipped
(optional value absent), and `some (some tv)` means `tv` is captured and
the tag cleared. -/
def capturedOf : TagType → Option InfoValue → Option (Option TagValue)
  | .Flag, some .flagV => some (some (.Flag 1))
  | .Flag, none => some (some (.Flag 0))
  | .Flag, some _ => none
  | .Integer, some (.intV v) => some (some (.Integer v))
  | .Integer, none => some none
  | .Integer, some _ => none
  | .Float, some (.floatV v) => some (some (.Float v))
  | .Float, none => some none
  | .Float, some _ => none
  | .String, some (.strV v) => some (some (.String v))
  | .String, none => some none
  | .String, some _ => none

/-! ## Order lemmas for the string comparison -/

theorem charToNat_inj {a b : Char} (h : a.toNat = b.toNat) : a = b :=
  Char.ext_iff.mpr (UInt32.ext_iff.mpr h)

theorem charListLt_irrefl (l : List Char) : charListLt l l = false := by
  induction l with
  | nil => rfl
  | cons a as ih => simp [charListLt, ih]

theorem charListLt_trans : ∀ (a b c : List Char),
    charListLt a b = true → charListLt b c = true → charListLt a c = true
  | _, [], _, h₁, _ => by simp [charListLt] at h₁
  | [], _ :: _, [], _, h₂ => by simp [charListLt] at h₂
  | _ :: _, _, [], _, h₂ => by cases ‹List Char› <;> simp [charListLt] at h₂
  | [], _ :: _, _ :: _, _, _ => by simp [charListLt]
  | a :: as, b :: bs, c :: cs, h₁, h₂ => by
    simp only [charListLt] at h₁ h₂ ⊢
    by_cases hab : a.toNat < b.toNat <;> by_cases hbc : b.toNat < c.toNat <;>
      simp only [hab, hbc, if_true, if_false, if_pos, if_neg] at h₁ h₂ ⊢
    · simp [show a.toNat < c.toNat from Nat.lt_trans hab hbc]
    · by_cases hcb : c.toNat < b.toNat
      · simp [hcb] at h₂
      · simp only [hcb, if_false] at h₂
        have hbc' : b.toNat = c.toNat := Nat.le_antisymm (Nat.le_of_not_lt hcb) (Nat.le_of_not_lt hbc)
        simp [show a.toNat < c.toNat from hbc' ▸ hab]
    · by_cases hba : b.toNat < a.toNat
      · simp [hba] at h₁
      · simp only [hba, if_false] at h₁
        have hab' : a.toNat = b.toNat := Nat.le_antisymm (Nat.le_of_not_lt hba) (Nat.le_of_not_lt hab)
        simp [show a.toNat < c.toNat from hab' ▸ hbc]
    · by_cases hba : b.toNat < a.toNat
      · simp [hba] at h₁
      · by_cases hcb : c.toNat < b.toNat
        · simp [hcb] at h₂
        · simp only [hba, hcb, if_false] at h₁ h₂
          have hab' : a.toNat = b.toNat :=
            Nat.le_antisymm (Nat.le_of_not_lt hba) (Nat.le_of_not_lt hab)
          have hbc' : b.toNat = c.toNat :=
            Nat.le_antisymm (Nat.le_of_not_lt hcb) (Nat.le_of_not_lt hbc)
          have hac : ¬ a.toNat < c.toNat := by omega
          have hca : ¬ c.toNat < a.toNat := by omega
          simp [hac, hca, charListLt_trans as bs cs h₁ h₂]

theorem charListLt_total : ∀ (a b : List Char),
    charListLt a b = false → charListLt b a = false → a = b
  | [], [], _, _ => rfl
  | [], _ :: _, h₁, _ => by simp [charListLt] at h₁
  | _ :: _, [], _, h₂ => by simp [charListLt] at h₂
  | a :: as, b :: bs, h₁, h₂ => by
    simp only [charListLt] at h₁ h₂
    by_cases hab : a.toNat < b.toNat
    · simp [hab] at h₁
    · by_cases hba : b.toNat < a.toNat
      · simp [hba] at h₂
      · simp only [hab, hba, if_false] at h₁ h₂
        have : a = b := charToNat_inj (Nat.le_antisymm (Nat.le_of_not_lt hba) (Nat.le_of_not_lt hab))
        rw [this, charListLt_total as bs h₁ h₂]

theorem strLt_irrefl (a : String) : strLt a a = false := charListLt_irrefl a.data

theorem strLt_trans {a b c : String} (h₁ : strLt a b = true) (h₂ : strLt b c = true) :
    strLt a c = true := charListLt_trans a.data b.data c.data h₁ h₂

theorem strLt_total {a b : String} (h₁ : strLt a b = false) (h₂ : strLt b a = false) : a = b :=
  String.ext (charListLt_total a.data b.data h₁ h₂)

theorem strLt_asymm {a b : String} (h : strLt a b = true) : strLt b a = false := by
  cases hba : strLt b a
  · rfl
  · exact absurd (strLt_trans h hba) (by simp [strLt_irrefl])

theorem strLt_of_ne_of_not_lt {a b : String} (h₁ : strLt a b = false) (hne : a ≠ b) :
    strLt b a = true := by
  cases hba : strLt b a
  · exact absurd (strLt_total h₁ hba) hne
  · rfl

/-! ## Association-list lemmas -/

theorem lookupA_eq_none {α : Type} {k : String} : ∀ {l : List (String × α)},
    k ∉ keysOf l → lookupA k l = none
  | [], _ => rfl
  | (k', v) :: t, h => by
    have hk : k ≠ k' := fun he => h (by simp [keysOf, he])
    have ht : k ∉ keysOf t := fun he => h (by simp [keysOf] at he ⊢; exact .inr he)
    simp [lookupA, hk, lookupA_eq_none ht]

theorem lookupA_some_mem {α : Type} {k : String} {v : α} : ∀ {l : List (String × α)},
    lookupA k l = some v → (k, v) ∈ l
  | (k', v') :: t, h => by
    by_cases hk : k = k'
    · simp [lookupA, hk] at h
      simp [hk, h]
    · simp [lookupA, hk] at h
      exact List.mem_cons_of_mem _ (lookupA_some_mem h)

theorem lookupA_insertSorted_self {α : Type} (k : String) (v : α) : ∀ (l : List (String × α)),
    lookupA k (insertSorted k v l) = some v
  | [] => by simp [insertSorted, lookupA]
  | (k', v') :: t => by
    by_cases hlt : strLt k k'
    · simp [insertSorted, hlt, lookupA]
    · by_cases heq : k = k'
      · subst heq
        simp [insertSorted, hlt, strLt_irrefl, lookupA]
      · simp [insertSorted, hlt, heq, lookupA, Ne.symm heq,
              lookupA_insertSorted_self k v t]

theorem lookupA_insertSorted_ne {α : Type} {j k : String} (v : α) (hne : j ≠ k) :
    ∀ (l : List (String × α)), lookupA j (insertSorted k v l) = lookupA j l
  | [] => by simp [insertSorted, lookupA, hne]
  | (k', v') :: t => by
    by_cases hlt : strLt k k'
    · simp [insertSorted, hlt, lookupA, hne]
    · by_cases heq : k = k'
      · subst heq
        simp [insertSorted, hlt, lookupA, hne]
      · by_cases hj : j = k'
        · simp [insertSorted, hlt, heq, lookupA, hj]
        · simp [insertSorted, hlt, heq, lookupA, hj, lookupA_insertSorted_ne v hne t]

theorem lookupA_removeA_self {α : Type} (k : String) : ∀ (l : List (String × α)),
    lookupA k (removeA k l) = none
  | [] => rfl
  | (k', v') :: t => by
    by_cases hk : k' = k
    · simp [removeA, hk, lookupA_removeA_self k t]
    · simp [removeA, hk, lookupA, Ne.symm hk, lookupA_removeA_self k t]

theorem lookupA_removeA_ne {α : Type} {j k : String} (hne : j ≠ k) :
    ∀ (l : List (String × α)), lookupA j (removeA k l) = lookupA j l
  | [] => rfl
  | (k', v') :: t => by
    by_cases hk : k' = k
    · subst hk
      simp [removeA, lookupA, hne, lookupA_removeA_ne hne t]
    · by_cases hj : j = k'
      · simp [removeA, hk, lookupA, hj]
      · simp [removeA, hk, lookupA, hj, lookupA_removeA_ne hne t]

theorem mem_keys_insertSorted {α : Type} {j k : String} {v : α} :
    ∀ {l : List (String × α)}, j ∈ keysOf (insertSorted k v l) → j = k ∨ j ∈ keysOf l
  | [], h => by simpa [insertSorted, keysOf] using h
  | (k', v') :: t, h => by
    by_cases hlt : strLt k k'
    · simpa [insertSorted, hlt, keysOf] using h
    · by_cases heq : k = k'
      · subst heq
        simp [insertSorted, hlt, strLt_irrefl, keysOf] at h ⊢
        tauto
      · simp [insertSorted, hlt, heq, keysOf] at h ⊢
        rcases h with h | h
        · tauto
        · rcases mem_keys_insertSorted (l := t) (by simpa [keysOf] using h) with h | h
          · tauto
          · simp [keysOf] at h
            tauto

theorem pairwise_insertSorted {α : Type} {k : String} {v : α} :
    ∀ {l : List (String × α)}, List.Pairwise KeyLt l →
      List.Pairwise KeyLt (insertSorted k v l)
  | [], _ => by simp [insertSorted]
  | (k', v') :: t, h => by
    rcases List.pairwise_cons.mp h with ⟨hall, ht⟩
    by_cases hlt : strLt k k'
    · simp only [insertSorted, hlt, if_true]
      refine List.pairwise_cons.mpr ⟨?_, h⟩
      intro b hb
      rcases List.mem_cons.mp hb with rfl | hb
      · exact hlt
      · exact strLt_trans hlt (hall b hb)
    · by_cases heq : k = k'
      · subst heq
        simp only [insertSorted, hlt, if_false, ite_true, strLt_irrefl]
        simp only [Bool.false_eq_true, if_false, if_pos rfl]
        exact List.pairwise_cons.mpr ⟨hall, ht⟩
      · have hgt : strLt k' k = true := strLt_of_ne_of_not_lt (by simpa using hlt) heq
        simp only [insertSorted, hlt, if_false, heq, ite_false]
        refine List.pairwise_cons.mpr ⟨?_, pairwise_insertSorted ht⟩
        intro b hb
        have : b.1 = k ∨ b.1 ∈ keysOf t :=
          mem_keys_insertSorted (by simp [keysOf]; exact ⟨b.2, by simpa using hb⟩)
        rcases this with hbk | hbt
        · simpa [KeyLt, hbk] using hgt
        · simp [keysOf] at hbt
          rcases hbt with ⟨b2, hb2⟩
          have := hall (b.1, b2) hb2
          simpa [KeyLt] using this

theorem pairwise_split_unique {α : Type} {F : String} {tt : α} {ft : List (String × α)}
    (hs : List.Pairwise KeyLt ft) (hmem : (F, tt) ∈ ft) :
    ∃ pre post, ft = pre ++ (F, tt) :: post ∧ F ∉ keysOf pre ∧ F ∉ keysOf post := by
  rcases List.append_of_mem hmem with ⟨pre, post, rfl⟩
  refine ⟨pre, post, rfl, ?_, ?_⟩
  · intro hF
    simp [keysOf] at hF
    rcases hF with ⟨v, hv⟩
    have := (List.pairwise_append.mp hs).2.2 (F, v) hv (F, tt) (by simp)
    simp [KeyLt, strLt_irrefl] at this
  · intro hF
    simp [keysOf] at hF
    rcases hF with ⟨v, hv⟩
    have := (List.pairwise_cons.mp (List.pairwise_append.mp hs).2.1).1 (F, v) hv
    simp [KeyLt, strLt_irrefl] at this

/-! ## Structure of the per-record extraction loop -/

theorem extractOne_shape {r : VcfRecord} {tag : String} {tt : TagType}
    {r1 : VcfRecord} {ov : Option TagValue} (h : extractOne r tag tt = .ok (r1, ov)) :
    r1 = r ∨ r1 = { r with info := removeA tag r.info } := by
  cases tt <;> simp only [extractOne] at h <;> split at h <;>
    simp only [Except.ok.injEq, Prod.mk.injEq, reduceCtorEq] at h <;>
    first
      | exact .inl h.1.symm
      | exact .inr h.1.symm

theorem extractOne_info_frame {r : VcfRecord} {tag : String} {tt : TagType}
    {r1 : VcfRecord} {ov : Option TagValue} {j : String}
    (h : extractOne r tag tt = .ok (r1, ov)) (hne : j ≠ tag) :
    lookupA j r1.info = lookupA j r.info := by
  rcases extractOne_shape h with rfl | rfl
  · rfl
  · exact lookupA_removeA_ne hne r.info

theorem extractOne_format_qual {r : VcfRecord} {tag : String} {tt : TagType}
    {r1 : VcfRecord} {ov : Option TagValue} (h : extractOne r tag tt = .ok (r1, ov)) :
    r1.format = r.format ∧ r1.qual = r.qual := by
  rcases extractOne_shape h with rfl | rfl <;> exact ⟨rfl, rfl⟩

theorem extractAll_append (b : List (String × TagType)) :
    ∀ (a : List (String × TagType)) (r : VcfRecord) (d : List (String × TagValue)),
    extractAll (a ++ b) r d =
      (match extractAll a r d with
        | .error e => .error e
        | .ok (r1, d1) => extractAll b r1 d1)
  | [], _, _ => rfl
  | (tag, tt) :: rest, r, d => by
    simp only [List.cons_append, extractAll]
    cases hone : extractOne r tag tt with
    | error e => rfl
    | ok p =>
      rcases p with ⟨r1, v⟩
      cases v with
      | none => exact extractAll_append b rest r1 d
      | some v => exact extractAll_append b rest r1 (insertSorted tag v d)

theorem extractAll_format_qual :
    ∀ {ft : List (String × TagType)} {r : VcfRecord} {d : List (String × TagValue)}
      {r1 : VcfRecord} {d1 : List (String × TagValue)},
    extractAll ft r d = .ok (r1, d1) → r1.format = r.format ∧ r1.qual = r.qual := by
  intro ft
  induction ft with
  | nil =>
    intro r d r1 d1 h
    simp only [extractAll, Except.ok.injEq, Prod.mk.injEq] at h
    rw [h.1.symm]
    exact ⟨rfl, rfl⟩
  | cons p rest ih =>
    rcases p with ⟨tag, tt⟩
    intro r d r1 d1 h
    simp only [extractAll] at h
    split at h
    · exact absurd h (by simp)
    · rename_i ra hone
      rcases extractOne_format_qual hone with ⟨hf, hq⟩
      rcases ih h with ⟨hf', hq'⟩
      exact ⟨hf'.trans hf, hq'.trans hq⟩
    · rename_i ra v hone
      rcases extractOne_format_qual hone with ⟨hf, hq⟩
      rcases ih h with ⟨hf', hq'⟩
      exact ⟨hf'.trans hf, hq'.trans hq⟩

theorem extractAll_frame {F : String} :
    ∀ {ft : List (String × TagType)} {r : VcfRecord} {d : List (String × TagValue)}
      {r1 : VcfRecord} {d1 : List (String × TagValue)},
    F ∉ keysOf ft → extractAll ft r d = .ok (r1, d1) →
    lookupA F r1.info = lookupA F r.info ∧ lookupA F d1 = lookupA F d := by
  intro ft
  induction ft with
  | nil =>
    intro r d r1 d1 _ h
    simp only [extractAll, Except.ok.injEq, Prod.mk.injEq] at h
    rw [h.1.symm, h.2.symm]
    exact ⟨rfl, rfl⟩
  | cons p rest ih =>
    rcases p with ⟨tag, tt⟩
    intro r d r1 d1 hnm h
    have hne : F ≠ tag := fun he => hnm (by simp [keysOf, he])
    have hnr : F ∉ keysOf rest := fun he => hnm (by simp [keysOf] at he ⊢; tauto)
    simp only [extractAll] at h
    split at h
    · exact absurd h (by simp)
    · rename_i ra hone
      rcases ih hnr h with ⟨hi, hd⟩
      exact ⟨hi.trans (extractOne_info_frame hone hne), hd⟩
    · rename_i ra v hone
      rcases ih hnr h with ⟨hi, hd⟩
      exact ⟨hi.trans (extractOne_info_frame hone hne),
             hd.trans (lookupA_insertSorted_ne v hne d)⟩

theorem extractAll_pairwise :
    ∀ {ft : List (String × TagType)} {r : VcfRecord} {d : List (String × TagValue)}
      {r1 : VcfRecord} {d1 : List (String × TagValue)},
    List.Pairwise KeyLt d → extractAll ft r d = .ok (r1, d1) → List.Pairwise KeyLt d1 := by
  intro ft
  induction ft with
  | nil =>
    intro r d r1 d1 hp h
    simp only [extractAll, Except.ok.injEq, Prod.mk.injEq] at h
    rw [h.2.symm]
    exact hp
  | cons p rest ih =>
    rcases p with ⟨tag, tt⟩
    intro r d r1 d1 hp h
    simp only [extractAll] at h
    split at h
    · exact absurd h (by simp)
    · exact ih hp h
    · exact ih (pairwise_insertSorted hp) h

/-! ## String-set and declaration-list lemmas -/

theorem elemStr_removeStr_self (F : String) : ∀ (l : List String),
    elemStr F (removeStr F l) = false
  | [] => rfl
  | k :: t => by
    by_cases hk : k = F
    · simp [removeStr, hk, elemStr_removeStr_self F t]
    · simp [removeStr, hk, elemStr, Ne.symm hk, elemStr_removeStr_self F t]

theorem elemStr_removeStr_ne {F G : String} (hne : F ≠ G) : ∀ (l : List String),
    elemStr F (removeStr G l) = elemStr F l
  | [] => rfl
  | k :: t => by
    by_cases hk : k = G
    · subst hk
      simp [removeStr, elemStr, hne, elemStr_removeStr_ne hne t]
    · by_cases hF : F = k
      · simp [removeStr, hk, elemStr, hF]
      · simp [removeStr, hk, elemStr, hF, elemStr_removeStr_ne hne t]

theorem elemStr_insertStr (F k : String) : ∀ (l : List String),
    elemStr F (insertStr k l) = (F = k || elemStr F l)
  | [] => by
    by_cases hF : F = k <;> simp [insertStr, elemStr, hF]
  | k' :: t => by
    by_cases hlt : strLt k k'
    · by_cases hF : F = k <;> simp [insertStr, hlt, elemStr, hF]
    · by_cases heq : k = k'
      · subst heq
        by_cases hF : F = k <;> simp [insertStr, hlt, strLt_irrefl, elemStr, hF]
      · by_cases hF : F = k'
        · simp [insertStr, hlt, heq, elemStr, hF]
        · simp [insertStr, hlt, heq, elemStr, hF, elemStr_insertStr F k t]

theorem elemStr_mkSet_aux (F : String) : ∀ (l acc : List String),
    elemStr F (l.foldl (fun s x => insertStr x s) acc) = (F ∈ l || elemStr F acc)
  | [], acc => by simp
  | k :: t, acc => by
    rw [List.foldl_cons, elemStr_mkSet_aux F t (insertStr k acc), elemStr_insertStr]
    by_cases hF : F = k <;> simp [hF, List.mem_cons]

/-- Membership in the requested-field set built at lines 63–65. -/
theorem elemStr_mkSet (F : String) (l : List String) :
    elemStr F (mkSet l) = (F ∈ l : Bool) := by
  rw [mkSet, elemStr_mkSet_aux]
  simp [elemStr]

theorem infoDeclsFor_removeInfoId_self (F : String) : ∀ (l : List InfoDecl),
    infoDeclsFor F (removeInfoId F l) = []
  | [] => rfl
  | i :: t => by
    by_cases hi : i.id = F
    · simp [removeInfoId, hi, infoDeclsFor_removeInfoId_self F t]
    · simp [removeInfoId, hi, infoDeclsFor, infoDeclsFor_removeInfoId_self F t]

theorem infoDeclsFor_removeInfoId_ne {F G : String} (hne : G ≠ F) : ∀ (l : List InfoDecl),
    infoDeclsFor F (removeInfoId G l) = infoDeclsFor F l
  | [] => rfl
  | i :: t => by
    by_cases hi : i.id = G
    · have : ¬ i.id = F := by rw [hi]; exact hne
      simp [removeInfoId, hi, infoDeclsFor, this, hne, infoDeclsFor_removeInfoId_ne hne t]
    · by_cases hF : i.id = F
      · simp [removeInfoId, hi, infoDeclsFor, hF, Ne.symm hne,
              infoDeclsFor_removeInfoId_ne hne t]
      · simp [removeInfoId, hi, infoDeclsFor, hF, infoDeclsFor_removeInfoId_ne hne t]

theorem formatDeclsFor_append (F : String) : ∀ (a b : List FormatDecl),
    formatDeclsFor F (a ++ b) = formatDeclsFor F a ++ formatDeclsFor F b
  | [], _ => rfl
  | i :: t, b => by
    by_cases hi : i.id = F <;> simp [formatDeclsFor, hi, formatDeclsFor_append F t b]

/-! ## Header-scan lemmas -/

/-- Once a field id is no longer in the requested set, the rest of the
header scan never touches it: its INFO declarations, its FORMAT
declarations and its plan entry are all preserved, and it never re-enters
the requested set. -/
theorem scanHeader_skips {F : String} :
    ∀ {recs : List HeaderRecord} {st st' : ScanState},
    elemStr F st.fields = false → scanHeader recs st = .ok st' →
    infoDeclsFor F st'.infos = infoDeclsFor F st.infos ∧
    formatDeclsFor F st'.formats = formatDeclsFor F st.formats ∧
    lookupA F st'.fieldTypes = lookupA F st.fieldTypes ∧
    elemStr F st'.fields = false := by
  intro recs
  induction recs with
  | nil =>
    intro st st' hF h
    simp only [scanHeader, Except.ok.injEq] at h
    rw [h.symm]
    exact ⟨rfl, rfl, rfl, hF⟩
  | cons rec rest ih =>
    intro st st' hF h
    cases rec with
    | info id number ty descr =>
      simp only [scanHeader] at h
      by_cases hid : elemStr id st.fields
      · have hne : id ≠ F := fun he => by rw [he] at hid; rw [hid] at hF; cases hF
        rw [if_pos hid] at h
        cases hty : parseTagType ty with
        | none => rw [hty] at h; exact absurd h (by simp)
        | some tt =>
          rw [hty] at h
          rcases ih (by simpa [elemStr_removeStr_ne (Ne.symm hne)] using hF) h with
            ⟨h1, h2, h3, h4⟩
          refine ⟨h1.trans (infoDeclsFor_removeInfoId_ne hne _), ?_, ?_, h4⟩
          · rw [h2, formatDeclsFor_append]
            simp [formatDeclsFor, hne]
          · rw [h3, lookupA_insertSorted_ne _ (Ne.symm hne)]
      · rw [if_neg hid] at h
        exact ih hF h
    | format id number ty descr =>
      simp only [scanHeader] at h
      exact ih hF h
    | other =>
      simp only [scanHeader] at h
      exact ih hF h

/-- The header scan processes the first INFO declaration of a requested
field id: that declaration alone is appended to the FORMAT namespace and
resolves the plan type, every INFO declaration with that id is removed
from the output schema, and the id leaves the requested set. -/
theorem scanHeader_first {F n ty d : String} {tt : TagType} {dups : List InfoDecl} :
    ∀ {recs : List HeaderRecord} {st st' : ScanState},
    infoDeclsFor F (infosOf recs) = ⟨F, n, ty, d⟩ :: dups →
    parseTagType ty = some tt →
    elemStr F st.fields = true →
    scanHeader recs st = .ok st' →
    infoDeclsFor F st'.infos = [] ∧
    formatDeclsFor F st'.formats = formatDeclsFor F st.formats ++ [⟨F, n, ty, d⟩] ∧
    lookupA F st'.fieldTypes = some tt ∧
    elemStr F st'.fields = false := by
  intro recs
  induction recs with
  | nil =>
    intro st st' hfirst _ _ _
    simp [infosOf, infoDeclsFor] at hfirst
  | cons rec rest ih =>
    intro st st' hfirst hty hF h
    cases rec with
    | info id number ty' descr =>
      by_cases hid : id = F
      · subst hid
        simp only [infosOf, infoDeclsFor, eq_self_iff_true, ite_true, List.cons.injEq,
          InfoDecl.mk.injEq, true_and] at hfirst
        rcases hfirst with ⟨⟨hn, htyeq, hd⟩, hrest⟩
        subst hn; subst htyeq; subst hd
        simp only [scanHeader, hF, if_true, hty] at h
        rcases scanHeader_skips (F := id) (by simp [elemStr_removeStr_self]) h with
          ⟨h1, h2, h3, h4⟩
        refine ⟨?_, ?_, ?_, h4⟩
        · rw [h1]
          simp [infoDeclsFor_removeInfoId_self]
        · rw [h2, formatDeclsFor_append]
          simp [formatDeclsFor]
        · rw [h3, lookupA_insertSorted_self]
      · have hfirst' : infoDeclsFor F (infosOf rest) = ⟨F, n, ty, d⟩ :: dups := by
          simpa [infosOf, infoDeclsFor, hid] using hfirst
        simp only [scanHeader] at h
        by_cases hmem : elemStr id st.fields
        · rw [if_pos hmem] at h
          cases hty' : parseTagType ty' with
          | none => rw [hty'] at h; exact absurd h (by simp)
          | some tt' =>
            rw [hty'] at h
            have hF' : elemStr F (removeStr id st.fields) = true := by
              rw [elemStr_removeStr_ne (Ne.symm hid)]
              exact hF
            rcases ih hfirst' hty hF' h with ⟨h1, h2, h3, h4⟩
            refine ⟨h1, ?_, h3, h4⟩
            rw [h2, formatDeclsFor_append]
            simp [formatDeclsFor, hid]
        · rw [if_neg hmem] at h
          exact ih hfirst' hty hF h
    | format id number ty' descr =>
      have hfirst' : infoDeclsFor F (infosOf rest) = ⟨F, n, ty, d⟩ :: dups := by
        simpa [infosOf] using hfirst
      simp only [scanHeader] at h
      exact ih hfirst' hty hF h
    | other =>
      have hfirst' : infoDeclsFor F (infosOf rest) = ⟨F, n, ty, d⟩ :: dups := by
        simpa [infosOf] using hfirst
      simp only [scanHeader] at h
      exact ih hfirst' hty hF h

/-- The scan keeps the field plan sorted (it is built by sorted
insertion). -/
theorem scanHeader_pairwise :
    ∀ {recs : List HeaderRecord} {st st' : ScanState},
    List.Pairwise KeyLt st.fieldTypes → scanHeader recs st = .ok st' →
    List.Pairwise KeyLt st'.fieldTypes := by
  intro recs
  induction recs with
  | nil =>
    intro st st' hp h
    simp only [scanHeader, Except.ok.injEq] at h
    rw [h.symm]
    exact hp
  | cons rec rest ih =>
    intro st st' hp h
    cases rec with
    | info id number ty descr =>
      simp only [scanHeader] at h
      by_cases hid : elemStr id st.fields
      · rw [if_pos hid] at h
        cases hty : parseTagType ty with
        | none => rw [hty] at h; exact absurd h (by simp)
        | some tt =>
          rw [hty] at h
          exact ih (pairwise_insertSorted hp) h
      · rw [if_neg hid] at h
        exact ih hp h
    | format id number ty descr => exact ih hp (by simpa [scanHeader] using h)
    | other => exact ih hp (by simpa [scanHeader] using h)

/-- A successful plan's field plan is sorted by key. -/
theorem plan_pairwise {argsFields : List String} {q : Bool} {sc : Nat}
    {hdr : List HeaderRecord} {oh : OutHeader} {ft : List (String × TagType)}
    (h : plan argsFields q sc hdr = .ok (oh, ft)) : List.Pairwise KeyLt ft := by
  simp only [plan] at h
  split at h
  · exact absurd h (by simp)
  · split at h
    · exact absurd h (by simp)
    · rename_i st hscan
      split at h
      · exact absurd h (by simp)
      · simp only [Except.ok.injEq, Prod.mk.injEq] at h
        rw [h.2.symm]
        exact scanHeader_pairwise List.Pairwise.nil hscan

/-! ## Extraction at a requested field -/

theorem lookupA_none_not_mem {α : Type} {k : String} {v : α} :
    ∀ {l : List (String × α)}, lookupA k l = none → (k, v) ∉ l
  | [], _ => by simp
  | (k', v') :: t, h => by
    by_cases hk : k = k'
    · simp [lookupA, hk] at h
    · simp only [lookupA, hk, if_neg, ite_false] at h
      intro hmem
      rcases List.mem_cons.mp hmem with he | hmem
      · exact hk (congrArg Prod.fst he)
      · exact lookupA_none_not_mem h hmem

theorem eraseKeyA_not_mem {α : Type} {k : String} : ∀ {l : List (String × α)},
    k ∉ keysOf l → eraseKeyA k l = l
  | [], _ => rfl
  | (k', v') :: t, h => by
    have hk : k' ≠ k := fun he => h (by simp [keysOf, he])
    have ht : k ∉ keysOf t := fun he => h (by simp [keysOf] at he ⊢; tauto)
    simp [eraseKeyA, hk, eraseKeyA_not_mem ht]

theorem eraseKeyA_append {α : Type} (k : String) : ∀ (a b : List (String × α)),
    eraseKeyA k (a ++ b) = eraseKeyA k a ++ eraseKeyA k b
  | [], _ => rfl
  | (k', v') :: t, b => by
    by_cases hk : k' = k <;> simp [eraseKeyA, hk, eraseKeyA_append k t b]

/-- Erasing the single occurrence of a requested key from a
duplicate-free decomposition. -/
theorem eraseKeyA_split {α : Type} {F : String} {tt : α}
    {pre post : List (String × α)} (hpre : F ∉ keysOf pre) (hpost : F ∉ keysOf post) :
    eraseKeyA F (pre ++ (F, tt) :: post) = pre ++ post := by
  rw [eraseKeyA_append, eraseKeyA_not_mem hpre]
  show pre ++ eraseKeyA F ((F, tt) :: post) = pre ++ post
  simp [eraseKeyA, eraseKeyA_not_mem hpost]

/-- What a successful one-field extraction step says, in terms of the
extraction contract `capturedOf`. -/
theorem extractOne_ok_spec {r : VcfRecord} {tag : String} {tt : TagType}
    {rb : VcfRecord} {ov : Option TagValue} (h : extractOne r tag tt = .ok (rb, ov)) :
    capturedOf tt (lookupA tag r.info) = some ov ∧ lookupA tag rb.info = none := by
  cases tt <;> simp only [extractOne] at h <;> split at h <;>
    rename_i heq <;>
    simp only [Except.ok.injEq, Prod.mk.injEq, reduceCtorEq] at h <;>
    rcases h with ⟨hrb, hov⟩ <;>
    subst hrb <;> subst hov <;>
    simp [capturedOf, heq, lookupA_removeA_self]

/-- A failed one-field extraction step is exactly a `capturedOf` panic. -/
theorem extractOne_error_spec {r : VcfRecord} {tag : String} {tt : TagType} {e : String}
    (h : extractOne r tag tt = .error e) :
    capturedOf tt (lookupA tag r.info) = none := by
  cases tt <;> simp only [extractOne] at h <;> split at h <;>
    rename_i heq <;> simp_all [capturedOf]

/-- Extraction over a plan that requests `F`: the captured value for `F`
is dictated by `capturedOf` applied to the record's stored value, and
after the loop `F` is gone from the record's INFO namespace. -/
theorem extractAll_at_requested {F : String} {tt : TagType}
    {ft : List (String × TagType)} {r r1 : VcfRecord} {data : List (String × TagValue)}
    (hs : List.Pairwise KeyLt ft) (hmem : (F, tt) ∈ ft)
    (hex : extractAll ft r [] = .ok (r1, data)) :
    ∃ cap, capturedOf tt (lookupA F r.info) = some cap ∧
      lookupA F data = cap ∧ lookupA F r1.info = none := by
  rcases pairwise_split_unique hs hmem with ⟨pre, post, rfl, hpre, hpost⟩
  rw [extractAll_append] at hex
  cases hpreex : extractAll pre r [] with
  | error e => rw [hpreex] at hex; exact absurd hex (by simp)
  | ok p =>
    rcases p with ⟨ra, da⟩
    rw [hpreex] at hex
    rcases extractAll_frame (F := F) hpre hpreex with ⟨hinfo_a, hdata_a⟩
    simp only [extractAll] at hex
    cases hone : extractOne ra F tt with
    | error e => rw [hone] at hex; exact absurd hex (by simp)
    | ok pb =>
      rcases pb with ⟨rb, ov⟩
      rw [hone] at hex
      rcases extractOne_ok_spec hone with ⟨hcap, hrb⟩
      rw [hinfo_a] at hcap
      cases ov with
      | none =>
        rcases extractAll_frame (F := F) hpost hex with ⟨h1, h2⟩
        exact ⟨none, hcap, h2.trans (hdata_a.trans rfl), h1.trans hrb⟩
      | some tv =>
        rcases extractAll_frame (F := F) hpost hex with ⟨h1, h2⟩
        exact ⟨some tv, hcap, h2.trans (lookupA_insertSorted_self F tv da), h1.trans hrb⟩

/-- Unfolding a successful whole-record transform. -/
theorem processRecord_ok {ft : List (String × TagType)} {q : Bool} {r r' : VcfRecord}
    (h : processRecord ft q r = .ok r') :
    ∃ r1 data, extractAll ft r [] = .ok (r1, data) ∧
      r'.info = r1.info ∧ r'.qual = r.qual ∧
      r'.format = r.format ++ data ++
        (if q then [("QUAL", TagValue.Float [r.qual])] else []) := by
  simp only [processRecord] at h
  cases hex : extractAll ft r [] with
  | error e => rw [hex] at h; exact absurd h (by simp)
  | ok p =>
    rcases p with ⟨r1, data⟩
    rw [hex] at h
    rcases extractAll_format_qual hex with ⟨hf, hq⟩
    simp only [Except.ok.injEq] at h
    refine ⟨r1, data, rfl, ?_, ?_, ?_⟩ <;> rw [h.symm] <;> cases q <;>
      simp [qualEntry, hf, hq]

/-! ## Streaming lemmas -/

/-- With a nonzero report interval the streaming loop does not depend on
the interval at all (the progress trace has no observable effect). -/
theorem streamLoop_report_interval (ft : List (String × TagType)) (q : Bool)
    (oh : OutHeader) {vr₁ vr₂ : Nat} (h1 : vr₁ ≠ 0) (h2 : vr₂ ≠ 0) :
    ∀ (items : List (Except String VcfRecord)) (n : Nat) (acc : List VcfRecord),
    streamLoop ft q vr₁ oh items n acc = streamLoop ft q vr₂ oh items n acc
  | [], _, _ => rfl
  | .error e :: _, _, _ => rfl
  | .ok r :: rest, n, acc => by
    simp only [streamLoop, if_neg h1, if_neg h2]
    cases processRecord ft q r with
    | error m => rfl
    | ok r' => exact streamLoop_report_interval ft q oh h1 h2 rest (n + 1) (acc ++ [r'])

/-- The streaming loop aborts at the first malformed stream item, with an
error that carries only the underlying parse error. -/
theorem streamLoop_malformed (ft : List (String × TagType)) (q : Bool)
    {vr : Nat} (oh : OutHeader) (e : String) (rest : List (Except String VcfRecord))
    (hvr : vr ≠ 0) :
    ∀ (goods : List VcfRecord) (n : Nat) (acc : List VcfRecord),
    (∀ g ∈ goods, ∃ g', processRecord ft q g = .ok g') →
    streamLoop ft q vr oh (goods.map .ok ++ .error e :: rest) n acc =
      ⟨.error (.malformedRecord e), n + goods.length + 1⟩
  | [], n, acc, _ => by simp [streamLoop]
  | g :: gs, n, acc, hgoods => by
    obtain ⟨g', hg⟩ := hgoods g (by simp)
    simp only [List.map_cons, List.cons_append, streamLoop, if_neg hvr, hg, List.append_eq]
    rw [streamLoop_malformed ft q oh e rest hvr gs (n + 1) (acc ++ [g'])
        (fun x hx => hgoods x (by simp [hx]))]
    have : n + 1 + gs.length = n + (gs.length + 1) := by omega
    rw [this]
    simp [List.length_cons]

/-- The planner relocates exactly the first INFO declaration of a
requested field id: the plan resolves the field's type from it, the
FORMAT namespace gains exactly that declaration, and no INFO declaration
with that id survives into the output annotation namespace. -/
theorem plan_relocates_first {argsFields : List String} {q : Bool}
    {hdr : List HeaderRecord} {F n ty d : String} {tt : TagType} {dups : List InfoDecl}
    {oh : OutHeader} {ft : List (String × TagType)}
    (hdecl : infoDeclsFor F (infosOf hdr) = ⟨F, n, ty, d⟩ :: dups)
    (hty : parseTagType ty = some tt)
    (hreq : F ∈ argsFields)
    (hnofmt : formatDeclsFor F (formatsOf hdr) = [])
    (hnq : ¬(q = true ∧ F = "QUAL"))
    (hplan : plan argsFields q 1 hdr = .ok (oh, ft)) :
    infoDeclsFor F oh.infos = [] ∧
    formatDeclsFor F oh.formats = [⟨F, n, ty, d⟩] ∧
    lookupA F ft = some tt := by
  simp only [plan, ne_eq, not_true_eq_false, if_false, ite_false] at hplan
  split at hplan
  · exact absurd hplan (by simp)
  · rename_i st hscan
    split at hplan
    · exact absurd hplan (by simp)
    · rename_i hmiss
      simp only [Except.ok.injEq, Prod.mk.injEq] at hplan
      rcases hplan with ⟨hoh, hft⟩
      have hFset : elemStr F (initScanState argsFields hdr).fields = true := by
        simp [initScanState, elemStr_mkSet, hreq]
      rcases scanHeader_first hdecl hty hFset hscan with ⟨h1, h2, h3, h4⟩
      have hst : formatDeclsFor F st.formats = [⟨F, n, ty, d⟩] := by
        rw [h2]
        simp [initScanState, hnofmt]
      refine ⟨?_, ?_, ?_⟩
      · rw [← hoh]
        exact h1
      · rw [← hoh]
        show formatDeclsFor F (if q = true then st.formats ++ [qualFormatDecl] else st.formats) =
          [⟨F, n, ty, d⟩]
        cases hqv : q with
        | false => simpa using hst
        | true =>
          have hFQ : F ≠ "QUAL" := fun he => hnq ⟨hqv, he⟩
          rw [if_pos rfl, formatDeclsFor_append, hst]
          simp [qualFormatDecl, formatDeclsFor, Ne.symm hFQ]
      · rw [← hft]
        exact h3

/-! ## Claim theorems -/

/-- C7: when the requested field list is empty and quality-score
relocation is not enabled, the run fails with the configuration (usage)
error; the result is one and the same for every input — no input is
opened, no I/O happens — and zero records are read. -/
theorem c7_config_error_before_io (cfg : Config)
    (hfields : cfg.fields = []) (hqual : cfg.qual = false) :
    ∀ inp : RunInput, run cfg inp = ⟨.error .noFields, 0⟩ := by
  intro inp
  simp [run, hfields, hqual]

/-- Witness for C7 at a concrete configuration (no fields, no qual flag)
and a concrete, even invalid, input. -/
theorem c7_config_error_before_io_witness :
    (Config.mk [] false 0 10000).fields = [] ∧
    (Config.mk [] false 0 10000).qual = false ∧
    run (Config.mk [] false 0 10000)
      ⟨2, [.info "DP" "1" "Integer" "dd"], [.ok ⟨[], ⟨0⟩, []⟩]⟩ =
      ⟨.error .noFields, 0⟩ :=
  ⟨rfl, rfl, c7_config_error_before_io (Config.mk [] false 0 10000) rfl rfl
    ⟨2, [.info "DP" "1" "Integer" "dd"], [.ok ⟨[], ⟨0⟩, []⟩]⟩⟩

/-- C8: on any validly configured run (some field or the qual flag
requested), an input whose header declares a sample count other than one
fails with the single-sample precondition error, with zero records read
and no schema in the result — regardless of which fields were
requested. -/
theorem c8_precondition_single_sample (cfg : Config) (inp : RunInput)
    (hvalid : ¬(cfg.fields = [] ∧ cfg.qual = false))
    (hsc : inp.sampleCount ≠ 1) :
    run cfg inp = ⟨.error .notSingleSample, 0⟩ := by
  simp [run, hvalid, plan, hsc]

/-- Witness for C8: a two-sample input aborts before planning. -/
theorem c8_precondition_single_sample_witness :
    ¬((Config.mk ["DP"] false 0 10000).fields = [] ∧
      (Config.mk ["DP"] false 0 10000).qual = false) ∧
    (RunInput.mk 2 [.info "DP" "1" "Integer" "dd"] [.ok ⟨[], ⟨0⟩, []⟩]).sampleCount ≠ 1 ∧
    run (Config.mk ["DP"] false 0 10000)
      (RunInput.mk 2 [.info "DP" "1" "Integer" "dd"] [.ok ⟨[], ⟨0⟩, []⟩]) =
      ⟨.error .notSingleSample, 0⟩ :=
  ⟨by simp, by decide,
   c8_precondition_single_sample (Config.mk ["DP"] false 0 10000)
     (RunInput.mk 2 [.info "DP" "1" "Integer" "dd"] [.ok ⟨[], ⟨0⟩, []⟩])
     (by simp) (by decide)⟩

/-- C4 counterexample: requesting `AAA` and `BBB` against a header that
lacks both produces the error value `missingField "AAA"` — exactly the
same result as a run in which only `AAA` is missing (with `BBB`
declared).  The reported error therefore names only the first missing id
in requested order, not all missing ids, refuting the claim. -/
theorem c4_counterexample :
    run ⟨["AAA", "BBB"], false, 0, 10000⟩ ⟨1, [], []⟩ =
      ⟨.error (.missingField "AAA"), 0⟩ ∧
    run ⟨["AAA", "BBB"], false, 0, 10000⟩ ⟨1, [.info "BBB" "1" "Integer" "dd"], []⟩ =
      ⟨.error (.missingField "AAA"), 0⟩ :=
  ⟨rfl, rfl⟩

/-- C4 amended: a run whose header scan completes but leaves some
requested id unresolved fails — after the full header scan and before any
record is read — with an unresolvable-field error naming the first
missing id in the order the fields were requested. -/
theorem c4_first_missing_fail_fast (cfg : Config) (inp : RunInput)
    (st : ScanState) (f : String)
    (hvalid : ¬(cfg.fields = [] ∧ cfg.qual = false))
    (hsc : inp.sampleCount = 1)
    (hscan : scanHeader inp.hdr (initScanState cfg.fields inp.hdr) = .ok st)
    (hmiss : firstMissing cfg.fields st.fieldTypes = some f) :
    run cfg inp = ⟨.error (.missingField f), 0⟩ := by
  simp [run, hvalid, plan, hsc, hscan, hmiss]

/-- Witness for amended C4 at a concrete run with two missing fields. -/
theorem c4_first_missing_fail_fast_witness :
    ¬((Config.mk ["AAA", "BBB"] false 0 10000).fields = [] ∧
      (Config.mk ["AAA", "BBB"] false 0 10000).qual = false) ∧
    (RunInput.mk 1 [] [.ok ⟨[], ⟨0⟩, []⟩]).sampleCount = 1 ∧
    scanHeader (RunInput.mk 1 [] [.ok ⟨[], ⟨0⟩, []⟩]).hdr
      (initScanState (Config.mk ["AAA", "BBB"] false 0 10000).fields
        (RunInput.mk 1 [] [.ok ⟨[], ⟨0⟩, []⟩]).hdr) =
      .ok (initScanState ["AAA", "BBB"] []) ∧
    firstMissing (Config.mk ["AAA", "BBB"] false 0 10000).fields
      (initScanState ["AAA", "BBB"] []).fieldTypes = some "AAA" ∧
    run (Config.mk ["AAA", "BBB"] false 0 10000) (RunInput.mk 1 [] [.ok ⟨[], ⟨0⟩, []⟩]) =
      ⟨.error (.missingField "AAA"), 0⟩ :=
  ⟨by simp, rfl, rfl, rfl,
   c4_first_missing_fail_fast (Config.mk ["AAA", "BBB"] false 0 10000)
     (RunInput.mk 1 [] [.ok ⟨[], ⟨0⟩, []⟩]) (initScanState ["AAA", "BBB"] []) "AAA"
     (by simp) rfl rfl rfl⟩

/-- C5 counterexample: a malformed record at ordinal 1 and a malformed
record at ordinal 3 abort with the identical outcome
`malformedRecord "bad"` — the reported error carries the underlying
cause only, not the record's ordinal position, refuting the claim. -/
theorem c5_counterexample :
    run ⟨[], true, 0, 10000⟩ ⟨1, [], [.error "bad"]⟩ =
      ⟨.error (.malformedRecord "bad"), 1⟩ ∧
    (run ⟨[], true, 0, 10000⟩
        ⟨1, [], [.ok ⟨[], ⟨1⟩, []⟩, .ok ⟨[], ⟨2⟩, []⟩, .error "bad"]⟩).outcome =
      .error (.malformedRecord "bad") :=
  ⟨rfl, rfl⟩

/-- C5 amended: the first malformed stream item aborts the run
immediately — the items after it are never pulled — and the run's error
is the malformed-record error carrying the underlying parse error (no
ordinal position is part of the reported error). -/
theorem c5_malformed_abort_without_ordinal (cfg : Config) (inp : RunInput)
    (oh : OutHeader) (ft : List (String × TagType)) (goods : List VcfRecord)
    (e : String) (rest : List (Except String VcfRecord))
    (hvalid : ¬(cfg.fields = [] ∧ cfg.qual = false))
    (hplan : plan cfg.fields cfg.qual inp.sampleCount inp.hdr = .ok (oh, ft))
    (hvr : cfg.verboseReport ≠ 0)
    (hrecs : inp.records = goods.map .ok ++ .error e :: rest)
    (hgoods : ∀ g ∈ goods, ∃ g', processRecord ft cfg.qual g = .ok g') :
    run cfg inp = ⟨.error (.malformedRecord e), goods.length + 1⟩ := by
  have hrun : run cfg inp = streamLoop ft cfg.qual cfg.verboseReport oh inp.records 0 [] := by
    simp [run, hvalid, hplan]
  rw [hrun, hrecs, streamLoop_malformed ft cfg.qual oh e rest hvr goods 0 [] hgoods]
  simp

/-- Witness for amended C5: one good record, then a malformed one, then a
further (never pulled) record. -/
theorem c5_malformed_abort_without_ordinal_witness :
    ¬((Config.mk ["DP"] false 0 10000).fields = [] ∧
      (Config.mk ["DP"] false 0 10000).qual = false) ∧
    plan ["DP"] false 1 [.info "DP" "1" "Integer" "dd"] =
      .ok (⟨[], [⟨"DP", "1", "Integer", "dd"⟩]⟩, [("DP", TagType.Integer)]) ∧
    (10000 : Nat) ≠ 0 ∧
    run (Config.mk ["DP"] false 0 10000)
      (RunInput.mk 1 [.info "DP" "1" "Integer" "dd"]
        [.ok ⟨[("DP", .intV [7])], ⟨0⟩, []⟩, .error "broken", .ok ⟨[], ⟨0⟩, []⟩]) =
      ⟨.error (.malformedRecord "broken"), 2⟩ :=
  ⟨by simp, rfl, by decide,
   c5_malformed_abort_without_ordinal (Config.mk ["DP"] false 0 10000)
     (RunInput.mk 1 [.info "DP" "1" "Integer" "dd"]
       [.ok ⟨[("DP", .intV [7])], ⟨0⟩, []⟩, .error "broken", .ok ⟨[], ⟨0⟩, []⟩])
     ⟨[], [⟨"DP", "1", "Integer", "dd"⟩]⟩ [("DP", TagType.Integer)]
     [⟨[("DP", .intV [7])], ⟨0⟩, []⟩] "broken" [.ok ⟨[], ⟨0⟩, []⟩]
     (by simp) rfl (by decide) rfl
     (by
       intro g hg
       simp only [List.mem_singleton] at hg
       subst hg
       exact ⟨_, rfl⟩)⟩

/-- C6 counterexample: two runs differing only in verbosity level and
progress-report interval (interval 10000 versus 0) on the same one-record
input have different outcomes: with interval 0 the run aborts with the
remainder-by-zero panic of `n_records % verbose_report`, refuting the
claim for interval 0. -/
theorem c6_counterexample :
    (run ⟨[], true, 0, 0⟩ ⟨1, [], [.ok ⟨[], ⟨7⟩, []⟩]⟩).outcome =
      .error .reportIntervalPanic ∧
    run ⟨[], true, 3, 10000⟩ ⟨1, [], [.ok ⟨[], ⟨7⟩, []⟩]⟩ ≠
      run ⟨[], true, 0, 0⟩ ⟨1, [], [.ok ⟨[], ⟨7⟩, []⟩]⟩ := by
  refine ⟨rfl, ?_⟩
  rw [show run ⟨[], true, 3, 10000⟩ ⟨1, [], [.ok ⟨[], ⟨7⟩, []⟩]⟩ =
        ⟨.ok (⟨[], [qualFormatDecl]⟩, [⟨[], ⟨7⟩, [("QUAL", .Float [⟨7⟩])]⟩], 1), 1⟩ from rfl,
      show run ⟨[], true, 0, 0⟩ ⟨1, [], [.ok ⟨[], ⟨7⟩, []⟩]⟩ =
        ⟨.error .reportIntervalPanic, 1⟩ from rfl]
  simp

/-- C6 amended: for nonzero progress-report intervals, two runs on the
same input and field configuration that differ only in verbosity level
and report interval produce identical results — the progress reporting is
purely observational. -/
theorem c6_progress_observational (cfg₁ cfg₂ : Config) (inp : RunInput)
    (hf : cfg₁.fields = cfg₂.fields) (hq : cfg₁.qual = cfg₂.qual)
    (h1 : cfg₁.verboseReport ≠ 0) (h2 : cfg₂.verboseReport ≠ 0) :
    run cfg₁ inp = run cfg₂ inp := by
  by_cases hcond : cfg₂.fields = [] ∧ cfg₂.qual = false
  · simp only [run, hf, hq, if_pos hcond]
  · simp only [run, hf, hq, if_neg hcond]
    cases hplan : plan cfg₂.fields cfg₂.qual inp.sampleCount inp.hdr with
    | error e => rfl
    | ok p =>
      rcases p with ⟨oh, ft⟩
      exact streamLoop_report_interval ft cfg₂.qual oh h1 h2 inp.records 0 []

/-- Witness for amended C6: verbosity 0 / interval 10000 versus verbosity
9 / interval 7 on a real one-record input. -/
theorem c6_progress_observational_witness :
    (Config.mk ["DP"] true 0 10000).fields = (Config.mk ["DP"] true 9 7).fields ∧
    (Config.mk ["DP"] true 0 10000).qual = (Config.mk ["DP"] true 9 7).qual ∧
    (Config.mk ["DP"] true 0 10000).verboseReport ≠ 0 ∧
    (Config.mk ["DP"] true 9 7).verboseReport ≠ 0 ∧
    run (Config.mk ["DP"] true 0 10000)
      (RunInput.mk 1 [.info "DP" "1" "Integer" "dd"]
        [.ok ⟨[("DP", .intV [5])], ⟨3⟩, []⟩]) =
    run (Config.mk ["DP"] true 9 7)
      (RunInput.mk 1 [.info "DP" "1" "Integer" "dd"]
        [.ok ⟨[("DP", .intV [5])], ⟨3⟩, []⟩]) :=
  ⟨rfl, rfl, by decide, by decide,
   c6_progress_observational (Config.mk ["DP"] true 0 10000) (Config.mk ["DP"] true 9 7)
     (RunInput.mk 1 [.info "DP" "1" "Integer" "dd"] [.ok ⟨[("DP", .intV [5])], ⟨3⟩, []⟩])
     rfl rfl (by decide) (by decide)⟩

/-- C9: on every successfully transformed record the captured
genotype-level values are appended to the record's FORMAT values as the
`data` map in ascending lexicographic key order (the map is built by
sorted insertion, so the order is canonical and independent of the order
the user listed the fields), and the QUAL pseudo-entry, when quality
relocation is enabled, comes after all of them. -/
theorem c9_genotype_insertion_order (ft : List (String × TagType)) (q : Bool)
    (r r' : VcfRecord) (hrun : processRecord ft q r = .ok r') :
    ∃ r1 data, extractAll ft r [] = .ok (r1, data) ∧
      r'.format = r.format ++ data ++
        (if q then [("QUAL", TagValue.Float [r.qual])] else []) ∧
      List.Pairwise KeyLt data := by
  rcases processRecord_ok hrun with ⟨r1, data, hex, _, _, hfmt⟩
  exact ⟨r1, data, hex, hfmt, extractAll_pairwise List.Pairwise.nil hex⟩

/-- Witness for C9: a plan listing `DP` before `AC` still inserts `AC`
before `DP`, and QUAL comes last. -/
theorem c9_genotype_insertion_order_witness :
    processRecord [("DP", TagType.Integer), ("AC", TagType.Integer)] true
      ⟨[("DP", .intV [7]), ("AC", .intV [1, 2])], ⟨9⟩, []⟩ =
      .ok ⟨[], ⟨9⟩,
        [("AC", .Integer [1, 2]), ("DP", .Integer [7]), ("QUAL", .Float [⟨9⟩])]⟩ ∧
    (∃ r1 data,
      extractAll [("DP", TagType.Integer), ("AC", TagType.Integer)]
        ⟨[("DP", .intV [7]), ("AC", .intV [1, 2])], ⟨9⟩, []⟩ [] = .ok (r1, data) ∧
      (VcfRecord.mk [] ⟨9⟩
        [("AC", .Integer [1, 2]), ("DP", .Integer [7]), ("QUAL", .Float [⟨9⟩])]).format =
        (VcfRecord.mk [("DP", .intV [7]), ("AC", .intV [1, 2])] ⟨9⟩ []).format ++ data ++
        (if true then [("QUAL", TagValue.Float
          [(VcfRecord.mk [("DP", .intV [7]), ("AC", .intV [1, 2])] ⟨9⟩ []).qual])] else []) ∧
      List.Pairwise KeyLt data) :=
  ⟨rfl,
   c9_genotype_insertion_order [("DP", TagType.Integer), ("AC", TagType.Integer)] true
     ⟨[("DP", .intV [7]), ("AC", .intV [1, 2])], ⟨9⟩, []⟩
     ⟨[], ⟨9⟩, [("AC", .Integer [1, 2]), ("DP", .Integer [7]), ("QUAL", .Float [⟨9⟩])]⟩
     rfl⟩

/-- C2: for every record processed with a requested Flag field `F`: if
`F` is set before the transform, then afterwards `F` is gone from the
record's INFO namespace and the genotype value `Flag 1` is present; if
`F` is absent, the genotype value `Flag 0` is present; in every
successful transform one of the two is produced — Flag extraction never
skips. -/
theorem c2_flag_transfer (argsFields : List String) (q : Bool) (hdr : List HeaderRecord)
    (oh : OutHeader) (ft : List (String × TagType)) (F : String) (r r' : VcfRecord)
    (hplan : plan argsFields q 1 hdr = .ok (oh, ft))
    (hmem : (F, TagType.Flag) ∈ ft)
    (hrun : processRecord ft q r = .ok r') :
    (lookupA F r.info = some .flagV →
       lookupA F r'.info = none ∧ (F, TagValue.Flag 1) ∈ r'.format) ∧
    (lookupA F r.info = none →
       lookupA F r'.info = none ∧ (F, TagValue.Flag 0) ∈ r'.format) ∧
    ((F, TagValue.Flag 1) ∈ r'.format ∨ (F, TagValue.Flag 0) ∈ r'.format) := by
  rcases processRecord_ok hrun with ⟨r1, data, hex, hinfo, _, hfmt⟩
  rcases extractAll_at_requested (plan_pairwise hplan) hmem hex with ⟨cap, hcap, hdata, hnone⟩
  have hmemfmt : ∀ tv, lookupA F data = some tv → (F, tv) ∈ r'.format := by
    intro tv htv
    rw [hfmt]
    exact List.mem_append.mpr (.inl (List.mem_append.mpr (.inr (lookupA_some_mem htv))))
  have hinfo' : lookupA F r'.info = none := by rw [hinfo]; exact hnone
  cases hl : lookupA F r.info with
  | none =>
    rw [hl] at hcap
    simp only [capturedOf, Option.some.injEq] at hcap
    rw [← hcap] at hdata
    exact ⟨fun h => absurd h (by simp),
           fun _ => ⟨hinfo', hmemfmt _ hdata⟩,
           .inr (hmemfmt _ hdata)⟩
  | some iv =>
    cases iv with
    | flagV =>
      rw [hl] at hcap
      simp only [capturedOf, Option.some.injEq] at hcap
      rw [← hcap] at hdata
      exact ⟨fun _ => ⟨hinfo', hmemfmt _ hdata⟩,
             fun h => absurd h (by simp),
             .inl (hmemfmt _ hdata)⟩
    | intV v => rw [hl] at hcap; simp [capturedOf] at hcap
    | floatV v => rw [hl] at hcap; simp [capturedOf] at hcap
    | strV v => rw [hl] at hcap; simp [capturedOf] at hcap

/-- Witness for C2: a plan with a Flag field `S`, one record carrying the
flag (value 1, flag cleared) — hypotheses discharged concretely. -/
theorem c2_flag_transfer_witness :
    plan ["S"] false 1 [.info "S" "0" "Flag" "ss"] =
      .ok (⟨[], [⟨"S", "0", "Flag", "ss"⟩]⟩, [("S", TagType.Flag)]) ∧
    (("S", TagType.Flag) ∈ [("S", TagType.Flag)]) ∧
    processRecord [("S", TagType.Flag)] false ⟨[("S", .flagV)], ⟨0⟩, []⟩ =
      .ok ⟨[], ⟨0⟩, [("S", .Flag 1)]⟩ ∧
    ((lookupA "S" (VcfRecord.mk [("S", .flagV)] ⟨0⟩ []).info = some .flagV →
       lookupA "S" (VcfRecord.mk [] ⟨0⟩ [("S", .Flag 1)]).info = none ∧
       ("S", TagValue.Flag 1) ∈ (VcfRecord.mk [] ⟨0⟩ [("S", .Flag 1)]).format) ∧
     (lookupA "S" (VcfRecord.mk [("S", .flagV)] ⟨0⟩ []).info = none →
       lookupA "S" (VcfRecord.mk [] ⟨0⟩ [("S", .Flag 1)]).info = none ∧
       ("S", TagValue.Flag 0) ∈ (VcfRecord.mk [] ⟨0⟩ [("S", .Flag 1)]).format) ∧
     (("S", TagValue.Flag 1) ∈ (VcfRecord.mk [] ⟨0⟩ [("S", .Flag 1)]).format ∨
      ("S", TagValue.Flag 0) ∈ (VcfRecord.mk [] ⟨0⟩ [("S", .Flag 1)]).format)) :=
  ⟨rfl, by simp, rfl,
   c2_flag_transfer ["S"] false [.info "S" "0" "Flag" "ss"]
     ⟨[], [⟨"S", "0", "Flag", "ss"⟩]⟩ [("S", TagType.Flag)] "S"
     ⟨[("S", .flagV)], ⟨0⟩, []⟩ ⟨[], ⟨0⟩, [("S", .Flag 1)]⟩
     rfl (by simp) rfl⟩

/-- C3: for every record processed with a requested non-Flag field `F`:
if `F` is absent from the record's INFO namespace, the transform equals
the transform that never requested `F` at all (no genotype value
inserted, no clearing attempted, the other requested fields handled
identically), and no FORMAT entry keyed `F` is added; if `F` is present,
its full value sequence is captured and re-inserted as the genotype value
unchanged, and `F` is cleared from the INFO namespace. -/
theorem c3_optional_transfer (argsFields : List String) (q : Bool) (hdr : List HeaderRecord)
    (oh : OutHeader) (ft : List (String × TagType)) (F : String) (tt : TagType)
    (r : VcfRecord)
    (hplan : plan argsFields q 1 hdr = .ok (oh, ft))
    (hmem : (F, tt) ∈ ft)
    (hnf : tt ≠ TagType.Flag)
    (hq : ¬(q = true ∧ F = "QUAL")) :
    (lookupA F r.info = none →
      processRecord ft q r = processRecord (eraseKeyA F ft) q r ∧
      (∀ r' v, processRecord ft q r = .ok r' → (F, v) ∈ r'.format → (F, v) ∈ r.format)) ∧
    (∀ r' v, processRecord ft q r = .ok r' → lookupA F r.info = some (.intV v) →
      (F, TagValue.Integer v) ∈ r'.format ∧ lookupA F r'.info = none) ∧
    (∀ r' v, processRecord ft q r = .ok r' → lookupA F r.info = some (.floatV v) →
      (F, TagValue.Float v) ∈ r'.format ∧ lookupA F r'.info = none) ∧
    (∀ r' v, processRecord ft q r = .ok r' → lookupA F r.info = some (.strV v) →
      (F, TagValue.String v) ∈ r'.format ∧ lookupA F r'.info = none) := by
  have hs := plan_pairwise hplan
  refine ⟨?_, ?_, ?_, ?_⟩
  · intro habs
    rcases pairwise_split_unique hs hmem with ⟨pre, post, hft, hpre, hpost⟩
    constructor
    · have herase : eraseKeyA F ft = pre ++ post := by
        rw [hft]; exact eraseKeyA_split hpre hpost
      have hEq : extractAll ft r [] = extractAll (pre ++ post) r [] := by
        rw [hft, extractAll_append, extractAll_append]
        cases hpreex : extractAll pre r [] with
        | error e => rfl
        | ok p =>
          rcases p with ⟨ra, da⟩
          rcases extractAll_frame (F := F) hpre hpreex with ⟨hra, _⟩
          have hra0 : lookupA F ra.info = none := by rw [hra, habs]
          show extractAll ((F, tt) :: post) ra da = extractAll post ra da
          cases tt with
          | Flag => exact absurd rfl hnf
          | Integer => simp [extractAll, extractOne, hra0]
          | Float => simp [extractAll, extractOne, hra0]
          | String => simp [extractAll, extractOne, hra0]
      rw [processRecord, processRecord, herase, hEq]
    · intro r' v hrun hvmem
      rcases processRecord_ok hrun with ⟨r1, data, hex, _, _, hfmt⟩
      rcases extractAll_at_requested hs hmem hex with ⟨cap, hcap, hdata, _⟩
      rw [habs] at hcap
      have hdnone : lookupA F data = none := by
        cases tt with
        | Flag => exact absurd rfl hnf
        | Integer =>
          simp only [capturedOf, Option.some.injEq] at hcap
          exact hdata.trans hcap.symm
        | Float =>
          simp only [capturedOf, Option.some.injEq] at hcap
          exact hdata.trans hcap.symm
        | String =>
          simp only [capturedOf, Option.some.injEq] at hcap
          exact hdata.trans hcap.symm
      rw [hfmt] at hvmem
      rcases List.mem_append.mp hvmem with hvm | hvm
      · rcases List.mem_append.mp hvm with hvm | hvm
        · exact hvm
        · exact absurd hvm (lookupA_none_not_mem hdnone)
      · cases hqv : q with
        | false => rw [hqv] at hvm; simp at hvm
        | true =>
          rw [hqv] at hvm
          simp only [if_true] at hvm
          have hFQ : F = "QUAL" := congrArg Prod.fst (List.mem_singleton.mp hvm)
          exact absurd ⟨hqv, hFQ⟩ hq
  · intro r' v hrun hlook
    rcases processRecord_ok hrun with ⟨r1, data, hex, hinfo, _, hfmt⟩
    rcases extractAll_at_requested hs hmem hex with ⟨cap, hcap, hdata, hnone⟩
    rw [hlook] at hcap
    cases tt with
    | Flag => exact absurd rfl hnf
    | Integer =>
      simp only [capturedOf, Option.some.injEq] at hcap
      refine ⟨?_, by rw [hinfo]; exact hnone⟩
      rw [hfmt]
      exact List.mem_append.mpr
        (.inl (List.mem_append.mpr (.inr (lookupA_some_mem (hdata.trans hcap.symm)))))
    | Float => simp [capturedOf] at hcap
    | String => simp [capturedOf] at hcap
  · intro r' v hrun hlook
    rcases processRecord_ok hrun with ⟨r1, data, hex, hinfo, _, hfmt⟩
    rcases extractAll_at_requested hs hmem hex with ⟨cap, hcap, hdata, hnone⟩
    rw [hlook] at hcap
    cases tt with
    | Flag => exact absurd rfl hnf
    | Integer => simp [capturedOf] at hcap
    | Float =>
      simp only [capturedOf, Option.some.injEq] at hcap
      refine ⟨?_, by rw [hinfo]; exact hnone⟩
      rw [hfmt]
      exact List.mem_append.mpr
        (.inl (List.mem_append.mpr (.inr (lookupA_some_mem (hdata.trans hcap.symm)))))
    | String => simp [capturedOf] at hcap
  · intro r' v hrun hlook
    rcases processRecord_ok hrun with ⟨r1, data, hex, hinfo, _, hfmt⟩
    rcases extractAll_at_requested hs hmem hex with ⟨cap, hcap, hdata, hnone⟩
    rw [hlook] at hcap
    cases tt with
    | Flag => exact absurd rfl hnf
    | Integer => simp [capturedOf] at hcap
    | Float => simp [capturedOf] at hcap
    | String =>
      simp only [capturedOf, Option.some.injEq] at hcap
      refine ⟨?_, by rw [hinfo]; exact hnone⟩
      rw [hfmt]
      exact List.mem_append.mpr
        (.inl (List.mem_append.mpr (.inr (lookupA_some_mem (hdata.trans hcap.symm)))))

/-- Witness for C3: an Integer field `DP` requested together with the
flag `S`, on a record lacking `DP` — hypotheses discharged concretely. -/
theorem c3_optional_transfer_witness :
    plan ["DP", "S"] false 1 [.info "DP" "1" "Integer" "dd", .info "S" "0" "Flag" "ss"] =
      .ok (⟨[], [⟨"DP", "1", "Integer", "dd"⟩, ⟨"S", "0", "Flag", "ss"⟩]⟩,
           [("DP", TagType.Integer), ("S", TagType.Flag)]) ∧
    (("DP", TagType.Integer) ∈ [("DP", TagType.Integer), ("S", TagType.Flag)]) ∧
    TagType.Integer ≠ TagType.Flag ∧
    ¬(false = true ∧ "DP" = "QUAL") ∧
    ((lookupA "DP" (VcfRecord.mk [("S", .flagV)] ⟨0⟩ []).info = none →
      processRecord [("DP", TagType.Integer), ("S", TagType.Flag)] false
          (VcfRecord.mk [("S", .flagV)] ⟨0⟩ []) =
        processRecord (eraseKeyA "DP" [("DP", TagType.Integer), ("S", TagType.Flag)]) false
          (VcfRecord.mk [("S", .flagV)] ⟨0⟩ []) ∧
      (∀ r' v, processRecord [("DP", TagType.Integer), ("S", TagType.Flag)] false
          (VcfRecord.mk [("S", .flagV)] ⟨0⟩ []) = .ok r' →
        ("DP", v) ∈ r'.format → ("DP", v) ∈ (VcfRecord.mk [("S", .flagV)] ⟨0⟩ []).format)) ∧
    (∀ r' v, processRecord [("DP", TagType.Integer), ("S", TagType.Flag)] false
        (VcfRecord.mk [("S", .flagV)] ⟨0⟩ []) = .ok r' →
      lookupA "DP" (VcfRecord.mk [("S", .flagV)] ⟨0⟩ []).info = some (.intV v) →
      ("DP", TagValue.Integer v) ∈ r'.format ∧ lookupA "DP" r'.info = none) ∧
    (∀ r' v, processRecord [("DP", TagType.Integer), ("S", TagType.Flag)] false
        (VcfRecord.mk [("S", .flagV)] ⟨0⟩ []) = .ok r' →
      lookupA "DP" (VcfRecord.mk [("S", .flagV)] ⟨0⟩ []).info = some (.floatV v) →
      ("DP", TagValue.Float v) ∈ r'.format ∧ lookupA "DP" r'.info = none) ∧
    (∀ r' v, processRecord [("DP", TagType.Integer), ("S", TagType.Flag)] false
        (VcfRecord.mk [("S", .flagV)] ⟨0⟩ []) = .ok r' →
      lookupA "DP" (VcfRecord.mk [("S", .flagV)] ⟨0⟩ []).info = some (.strV v) →
      ("DP", TagValue.String v) ∈ r'.format ∧ lookupA "DP" r'.info = none)) :=
  ⟨rfl, by simp, by decide, by simp,
   c3_optional_transfer ["DP", "S"] false
     [.info "DP" "1" "Integer" "dd", .info "S" "0" "Flag" "ss"]
     ⟨[], [⟨"DP", "1", "Integer", "dd"⟩, ⟨"S", "0", "Flag", "ss"⟩]⟩
     [("DP", TagType.Integer), ("S", TagType.Flag)] "DP" TagType.Integer
     (VcfRecord.mk [("S", .flagV)] ⟨0⟩ [])
     rfl (by simp) (by decide) (by simp)⟩

/-- C1: for a single-sample header declaring INFO field `F` exactly once
with a recognised type (and not already declaring a FORMAT field `F`, nor
colliding with the reserved QUAL id when quality relocation is enabled),
a successful plan leaves no `F` declaration in the output annotation
namespace, declares `F` exactly once in the output genotype namespace
with identical id, cardinality, type string and description, and resolves
`F` in the field plan to the 1:1-mapped type. -/
theorem c1_schema_relocation (argsFields : List String) (q : Bool)
    (hdr : List HeaderRecord) (F n ty d : String) (tt : TagType)
    (oh : OutHeader) (ft : List (String × TagType))
    (hdecl : infoDeclsFor F (infosOf hdr) = [⟨F, n, ty, d⟩])
    (hty : parseTagType ty = some tt)
    (hreq : F ∈ argsFields)
    (hnofmt : formatDeclsFor F (formatsOf hdr) = [])
    (hnq : ¬(q = true ∧ F = "QUAL"))
    (hplan : plan argsFields q 1 hdr = .ok (oh, ft)) :
    infoDeclsFor F oh.infos = [] ∧
    formatDeclsFor F oh.formats = [⟨F, n, ty, d⟩] ∧
    lookupA F ft = some tt :=
  plan_relocates_first hdecl hty hreq hnofmt hnq hplan

/-- Witness for C1: relocating Integer field `DP` out of a small header
(which also carries an unrelated FORMAT declaration that is preserved). -/
theorem c1_schema_relocation_witness :
    infoDeclsFor "DP"
      (infosOf [.other, .info "DP" "7" "Integer" "dd", .format "GT" "1" "String" "gg"]) =
      [⟨"DP", "7", "Integer", "dd"⟩] ∧
    parseTagType "Integer" = some TagType.Integer ∧
    ("DP" ∈ ["DP"]) ∧
    formatDeclsFor "DP"
      (formatsOf [.other, .info "DP" "7" "Integer" "dd", .format "GT" "1" "String" "gg"]) = [] ∧
    ¬(false = true ∧ "DP" = "QUAL") ∧
    plan ["DP"] false 1
      [.other, .info "DP" "7" "Integer" "dd", .format "GT" "1" "String" "gg"] =
      .ok (⟨[], [⟨"GT", "1", "String", "gg"⟩, ⟨"DP", "7", "Integer", "dd"⟩]⟩,
           [("DP", TagType.Integer)]) ∧
    (infoDeclsFor "DP"
        (OutHeader.mk [] [⟨"GT", "1", "String", "gg"⟩, ⟨"DP", "7", "Integer", "dd"⟩]).infos =
      [] ∧
     formatDeclsFor "DP"
        (OutHeader.mk [] [⟨"GT", "1", "String", "gg"⟩, ⟨"DP", "7", "Integer", "dd"⟩]).formats =
      [⟨"DP", "7", "Integer", "dd"⟩] ∧
     lookupA "DP" [("DP", TagType.Integer)] = some TagType.Integer) :=
  ⟨rfl, rfl, by simp, rfl, by simp, rfl,
   c1_schema_relocation ["DP"] false
     [.other, .info "DP" "7" "Integer" "dd", .format "GT" "1" "String" "gg"]
     "DP" "7" "Integer" "dd" TagType.Integer
     (OutHeader.mk [] [⟨"GT", "1", "String", "gg"⟩, ⟨"DP", "7", "Integer", "dd"⟩])
     [("DP", TagType.Integer)]
     rfl rfl (by simp) rfl (by simp) rfl⟩

/-- C10 counterexample: a header with two INFO declarations for `DP`
(the claim's premise), `DP` requested.  The plan succeeds, resolves the
type from the first declaration and relocates only the first — but the
output annotation namespace is empty: the second declaration is NOT left
untouched, because the header-model removal removes every declaration
with the requested id.  This refutes the claim's "later declarations
are left untouched" part. -/
theorem c10_counterexample :
    infoDeclsFor "DP"
      (infosOf [.info "DP" "1" "Integer" "d1", .info "DP" "1" "Float" "d2"]) =
      [⟨"DP", "1", "Integer", "d1"⟩, ⟨"DP", "1", "Float", "d2"⟩] ∧
    plan ["DP"] false 1 [.info "DP" "1" "Integer" "d1", .info "DP" "1" "Float" "d2"] =
      .ok (⟨[], [⟨"DP", "1", "Integer", "d1"⟩]⟩, [("DP", TagType.Integer)]) :=
  ⟨rfl, rfl⟩

/-- C10 amended: when the header carries several INFO declarations with
the same requested id, only the first one is relocated into the genotype
namespace and resolves the plan's type; the later duplicates are skipped
by the scan (they neither abort the run nor override the plan) — but they
do not remain in the output annotation namespace: the removal by id
strips every declaration with that id. -/
theorem c10_first_declaration_wins (argsFields : List String) (q : Bool)
    (hdr : List HeaderRecord) (F n ty d : String) (tt : TagType) (dups : List InfoDecl)
    (oh : OutHeader) (ft : List (String × TagType))
    (hdecl : infoDeclsFor F (infosOf hdr) = ⟨F, n, ty, d⟩ :: dups)
    (_hdups : dups ≠ [])
    (hty : parseTagType ty = some tt)
    (hreq : F ∈ argsFields)
    (hnofmt : formatDeclsFor F (formatsOf hdr) = [])
    (hnq : ¬(q = true ∧ F = "QUAL"))
    (hplan : plan argsFields q 1 hdr = .ok (oh, ft)) :
    infoDeclsFor F oh.infos = [] ∧
    formatDeclsFor F oh.formats = [⟨F, n, ty, d⟩] ∧
    lookupA F ft = some tt :=
  plan_relocates_first hdecl hty hreq hnofmt hnq hplan

/-- Witness for amended C10: the duplicate `DP` declaration even has an
unrecognised type string, and still the plan succeeds with the first
declaration's type — the duplicate is skipped, not re-examined. -/
theorem c10_first_declaration_wins_witness :
    infoDeclsFor "DP"
      (infosOf [.info "DP" "1" "Integer" "d1", .info "DP" "9" "Garbage" "d2"]) =
      [⟨"DP", "1", "Integer", "d1"⟩, ⟨"DP", "9", "Garbage", "d2"⟩] ∧
    ([(⟨"DP", "9", "Garbage", "d2"⟩ : InfoDecl)] ≠ []) ∧
    parseTagType "Integer" = some TagType.Integer ∧
    ("DP" ∈ ["DP"]) ∧
    formatDeclsFor "DP"
      (formatsOf [.info "DP" "1" "Integer" "d1", .info "DP" "9" "Garbage" "d2"]) = [] ∧
    ¬(false = true ∧ "DP" = "QUAL") ∧
    plan ["DP"] false 1 [.info "DP" "1" "Integer" "d1", .info "DP" "9" "Garbage" "d2"] =
      .ok (⟨[], [⟨"DP", "1", "Integer", "d1"⟩]⟩, [("DP", TagType.Integer)]) ∧
    (infoDeclsFor "DP" (OutHeader.mk [] [⟨"DP", "1", "Integer", "d1"⟩]).infos = [] ∧
     formatDeclsFor "DP" (OutHeader.mk [] [⟨"DP", "1", "Integer", "d1"⟩]).formats =
       [⟨"DP", "1", "Integer", "d1"⟩] ∧
     lookupA "DP" [("DP", TagType.Integer)] = some TagType.Integer) :=
  ⟨rfl, by simp, rfl, by simp, rfl, by simp, rfl,
   c10_first_declaration_wins ["DP"] false
     [.info "DP" "1" "Integer" "d1", .info "DP" "9" "Garbage" "d2"]
     "DP" "1" "Integer" "d1" TagType.Integer [⟨"DP", "9", "Garbage", "d2"⟩]
     (OutHeader.mk [] [⟨"DP", "1", "Integer", "d1"⟩]) [("DP", TagType.Integer)]
     rfl (by simp) rfl (by simp) rfl (by simp) rfl⟩

end InfoToFormat
